import Mathlib

/-!
Verification development for the demo-lightning-app repository.

The repository ships a React Native frontend (`LNCService.ts`, which also
holds `TaprootService`), the PostgreSQL schema for the two relations
`asset_balances(asset_id PK, balance, ...)` and
`transactions(id PK, tx_type, asset_id, amount, status, destination,
description, ...)`, and the specification of the Asset Ledger &
Reconciliation Engine (TransactionLedger, BalanceProjector,
IdempotencyGuard, ReconciliationScheduler).  The Rust backend that
implements the engine is not part of the source tree, so the engine is
modelled here from the specification's words over the persisted schema;
the frontend services are embedded directly from `LNCService.ts`.
-/

namespace AssetLedger

/-- Modelled from the spec: `tx_type` is one of
{Mint, Send, Receive, Issuance, Reconciliation} (spec §3). -/
inductive TxType where
  | mint
  | send
  | receive
  | issuance
  | reconciliation
deriving DecidableEq

/-- Modelled from the spec: `status` is one of {Pending, Confirmed, Failed}
(spec §3, state machine in §4.1). -/
inductive TxStatus where
  | pending
  | confirmed
  | failed
deriving DecidableEq

/-- Modelled from the spec and the `transactions` relation of the schema:
one record per balance-affecting intent.  `asset_id` is nullable (node-level
operations); the timestamp columns are not modelled because no claim
mentions them. -/
structure Transaction where
  id : Nat
  tx_type : TxType
  asset_id : Option String
  amount : Int
  status : TxStatus
  destination : Option String
  description : Option String
deriving DecidableEq

/-- Modelled from the spec: the error taxonomy of §7 restricted to the
errors the ledger operations raise synchronously. -/
inductive LedgerError where
  | validationError
  | duplicateTransaction
  | notFound
  | invalidTransition
deriving DecidableEq

/-- Modelled from the spec: the durable state of the engine, i.e. the two
relations `transactions` and `asset_balances` of the schema, plus the
fresh-id counter the ledger uses to assign primary keys. -/
structure LedgerState where
  transactions : List Transaction
  asset_balances : List (String × Int)
  nextId : Nat
deriving DecidableEq

/-- Modelled from the spec: the empty initial state (both relations empty). -/
def initState : LedgerState := ⟨[], [], 0⟩

/-- Modelled from the spec: sign convention fixed per `tx_type`
(Send/negative, Receive/Mint/positive, Reconciliation/either, spec §3).
The spec does not constrain Issuance, so it is accepted either way. -/
def signOk : TxType → Int → Bool
  | .send, amt => decide (amt < 0)
  | .receive, amt => decide (0 < amt)
  | .mint, amt => decide (0 < amt)
  | .issuance, _ => true
  | .reconciliation, _ => true

/-- Whether some transaction in the list already carries the given id. -/
def hasId (txs : List Transaction) (i : Nat) : Bool :=
  txs.any (fun t => t.id == i)

/-- Modelled from the spec: `append(tx_type, asset_id, amount, destination?,
description?, id?)` of §4.1 — validates the amount's sign, rejects a
supplied id that already exists with `DuplicateTransaction`, otherwise
assigns a fresh id, sets `status = Pending` and persists the record. -/
def append (st : LedgerState) (ty : TxType) (aid : Option String) (amt : Int)
    (dest desc : Option String) (suppliedId : Option Nat) :
    Except LedgerError (Transaction × LedgerState) :=
  if signOk ty amt then
    if (match suppliedId with
        | some i => hasId st.transactions i
        | none => false) then
      .error .duplicateTransaction
    else
      let tx : Transaction := ⟨st.nextId, ty, aid, amt, .pending, dest, desc⟩
      .ok (tx, ⟨st.transactions ++ [tx], st.asset_balances, st.nextId + 1⟩)
  else .error .validationError

/-- Balance of an asset as read from the `asset_balances` rows: the stored
value of the first row with that key, or 0 when the asset has no row. -/
def lookupBalance : List (String × Int) → String → Int
  | [], _ => 0
  | (k, v) :: rest, a => if k = a then v else lookupBalance rest a

/-- Whether the `asset_balances` relation holds a row for the asset. -/
def hasRow : List (String × Int) → String → Bool
  | [], _ => false
  | (k, _) :: rest, a => if k = a then true else hasRow rest a

/-- Modelled from the spec: the upsert of `BalanceProjector.apply` — add the
delta to the existing row, or create the row at 0 and add the delta when
absent (spec §4.2). -/
def upsert : List (String × Int) → String → Int → List (String × Int)
  | [], a, amt => [(a, 0 + amt)]
  | (k, v) :: rest, a, amt =>
      if k = a then (k, v + amt) :: rest else (k, v) :: upsert rest a amt

/-- Modelled from the spec: `BalanceProjector.apply(tx)` — upsert the
AssetBalance row of `tx.asset_id` by adding `tx.amount`; a transaction with
no asset (node-level) touches no row. -/
def applyTx (balances : List (String × Int)) (tx : Transaction) :
    List (String × Int) :=
  match tx.asset_id with
  | none => balances
  | some a => upsert balances a tx.amount

/-- First transaction with the given primary key, if any. -/
def findTx : List Transaction → Nat → Option Transaction
  | [], _ => none
  | t :: rest, i => if t.id = i then some t else findTx rest i

/-- Modelled from the spec: `transition(id, newStatus)` of §4.1 — `NotFound`
for an unknown id, `InvalidTransition` when the current status is terminal
or `newStatus` is not a legal successor of `Pending`; otherwise updates the
status, and for `Confirmed` triggers `BalanceProjector.apply` in the same
atomic unit (spec §5). -/
def transition (st : LedgerState) (i : Nat) (ns : TxStatus) :
    Except LedgerError (Transaction × LedgerState) :=
  match findTx st.transactions i with
  | none => .error .notFound
  | some tx =>
      match tx.status, ns with
      | .pending, .confirmed =>
          let tx' := { tx with status := TxStatus.confirmed }
          .ok (tx', ⟨st.transactions.map (fun t => if t.id = i then tx' else t),
                     applyTx st.asset_balances tx', st.nextId⟩)
      | .pending, .failed =>
          let tx' := { tx with status := TxStatus.failed }
          .ok (tx', ⟨st.transactions.map (fun t => if t.id = i then tx' else t),
                     st.asset_balances, st.nextId⟩)
      | _, _ => .error .invalidTransition

/-- Modelled from the spec: `BalanceProjector.getBalance(asset_id)` —
current projected balance, or 0 when the asset has no row (spec §4.2). -/
def getBalance (st : LedgerState) (a : String) : Int :=
  lookupBalance st.asset_balances a

/-- Contribution of one transaction to the confirmed sum of asset `a`. -/
def contrib (a : String) (t : Transaction) : Int :=
  if t.asset_id = some a ∧ t.status = TxStatus.confirmed then t.amount else 0

/-- Sum of `amount` over all transactions with the given `asset_id` and
`status = Confirmed`. -/
def confirmedSum (txs : List Transaction) (a : String) : Int :=
  (txs.map (contrib a)).sum

/-- Whether a transaction is a Confirmed transaction of asset `a`. -/
def isConfirmedFor (a : String) (t : Transaction) : Bool :=
  decide (t.asset_id = some a ∧ t.status = TxStatus.confirmed)

/-- Number of Confirmed transactions of asset `a`. -/
def confirmedCount (txs : List Transaction) (a : String) : Nat :=
  (txs.filter (isConfirmedFor a)).length

/-- Modelled from the spec: one reconciliation step of §4.4 for one asset —
compare the daemon-reported balance to the projected one; when they differ,
append a `Reconciliation` transaction whose amount is exactly the
difference (daemon value − local value) and transition it straight to
`Confirmed`; when they agree, do nothing. -/
def reconcile (st : LedgerState) (a : String) (daemonVal : Int) :
    LedgerState × Option Transaction :=
  if daemonVal = getBalance st a then (st, none)
  else
    match append st .reconciliation (some a) (daemonVal - getBalance st a)
        none none none with
    | .error _ => (st, none)
    | .ok (tx, st1) =>
        match transition st1 tx.id .confirmed with
        | .error _ => (st1, none)
        | .ok (tx', st2) => (st2, some tx')

/-- Modelled from the spec: one complete `submitSend` of amount −1 for asset
`a`, executed inside the per-asset critical section of §5 — append the Send
entry and confirm it (the daemon acknowledging), with the projector applied
in the same atomic unit. -/
def sendOnce (st : LedgerState) (a : String) : LedgerState :=
  match append st .send (some a) (-1) none none none with
  | .error _ => st
  | .ok (tx, st1) =>
      match transition st1 tx.id .confirmed with
      | .error _ => st1
      | .ok (_, st2) => st2

/-- Modelled from the spec: N serialized `submitSend(-1)` operations against
the same asset.  Spec §5 requires balance-mutating operations of one asset
to be serialized in a per-asset exclusive critical section, so every
interleaving of N identical concurrent calls executes as this sequence. -/
def sendN : Nat → LedgerState → String → LedgerState
  | 0, st, _ => st
  | n + 1, st, a => sendN n (sendOnce st a) a

/-- Key lookup in the idempotency map (first match). -/
def lookupKey : List (String × Nat) → String → Option Nat
  | [], _ => none
  | (k, v) :: rest, a => if k = a then some v else lookupKey rest a

/-- Modelled from the spec: the state visible to the IdempotencyGuard — its
key → Transaction-id map next to the ledger state. -/
structure SysState where
  guard : List (String × Nat)
  ledger : LedgerState

/-- Modelled from the spec: `IdempotencyGuard.submit(idempotency_key,
operation)` of §4.3 — a key seen before returns the Transaction id produced
by the original call without invoking `operation` or mutating any state;
an unseen key runs the operation and records the key mapped to the
ledger-assigned Transaction id. -/
def submit (k : String) (op : LedgerState → Nat × LedgerState) (s : SysState) :
    Nat × SysState :=
  match lookupKey s.guard k with
  | some txid => (txid, s)
  | none =>
      let r := op s.ledger
      (r.1, ⟨(k, r.1) :: s.guard, r.2⟩)

/-- Well-formedness the ledger maintains: every stored id is below the
fresh-id counter and the stored ids are pairwise distinct (`id` is the
primary key of the `transactions` relation). -/
def WF (st : LedgerState) : Prop :=
  (∀ t ∈ st.transactions, t.id < st.nextId) ∧
  (st.transactions.map Transaction.id).Nodup

/-- States reachable from the empty initial state through the engine's
operations: ledger appends, status transitions (which trigger the
projector), and reconciliation cycles. -/
inductive Reachable : LedgerState → Prop where
  | start : Reachable initState
  | append_step {st ty aid amt dest desc sid tx st'} :
      Reachable st → append st ty aid amt dest desc sid = .ok (tx, st') →
      Reachable st'
  | transition_step {st i ns tx st'} :
      Reachable st → transition st i ns = .ok (tx, st') → Reachable st'
  | reconcile_step {st a v st' r} :
      Reachable st → reconcile st a v = (st', r) → Reachable st'

end AssetLedger

namespace Frontend

/-- Shape of `ApiResponse<T>` in `LNCService.ts`. -/
structure ApiResponse (T : Type) where
  success : Bool
  data : Option T
  error : Option String
  message : Option String

/-- JavaScript truthiness of an optional string: `undefined` and the empty
string are falsy, every other string is truthy. -/
def strTruthy : Option String → Bool
  | none => false
  | some s => decide (s ≠ "")

/-- Embedding of `TaprootService.sendAsset` (`LNCService.ts`).  The argument
is the outcome of the `fetch`/`response.json()` pair: `none` when the
network call or JSON parsing threw, `some result` otherwise.  The body
returns `result.data` when `result.success && result.data` is truthy and
otherwise throws, which the surrounding catch turns into `null`. -/
def sendAsset (fetchResult : Option (ApiResponse String)) : Option String :=
  match fetchResult with
  | none => none
  | some result =>
      if result.success && strTruthy result.data then result.data else none

/-- Embedding of `TaprootService.getAssetBalance` (`LNCService.ts`): returns
`result.data` when `result.success && result.data !== undefined`, and 0 on
every other path (throw caught, non-success, or missing data). -/
def getAssetBalance (fetchResult : Option (ApiResponse Int)) : Int :=
  match fetchResult with
  | none => 0
  | some result =>
      if result.success && result.data.isSome then result.data.getD 0 else 0

/-- Shape of `NodeInfo` in `LNCService.ts` (field `alias` renamed to
`aliasName`, since `alias` is taken in Lean). -/
structure NodeInfo where
  identityPubkey : String
  aliasName : String
  numActiveChannels : Nat
  numInactiveChannels : Nat
  blockHeight : Nat
  syncedToChain : Bool

/-- Shape of `ChannelBalance` in `LNCService.ts`. -/
structure ChannelBalance where
  localBalance : Int × Int
  remoteBalance : Int × Int

/-- Shape of `WalletBalance` in `LNCService.ts`. -/
structure WalletBalance where
  totalBalance : Int
  confirmedBalance : Int
  unconfirmedBalance : Int

/-- Connection-relevant state of an `LNCService` instance: the nullable
`lnc` handle and the `isConnected` flag. -/
structure ServiceState where
  lnc : Option Unit
  isConnected : Bool

/-- Embedding of `LNCService.getNodeInfo`: the guard
`if (!this.lnc || !this.isConnected) return null` precedes the node call;
`nodeResp` is the outcome of that call (`none` when it threw). -/
def getNodeInfo (st : ServiceState) (nodeResp : Option NodeInfo) :
    Option NodeInfo :=
  if st.lnc.isNone || !st.isConnected then none else nodeResp

/-- Embedding of `LNCService.getWalletBalance`: same guard shape. -/
def getWalletBalance (st : ServiceState) (nodeResp : Option WalletBalance) :
    Option WalletBalance :=
  if st.lnc.isNone || !st.isConnected then none else nodeResp

/-- Embedding of `LNCService.getChannelBalance`: same guard shape. -/
def getChannelBalance (st : ServiceState) (nodeResp : Option ChannelBalance) :
    Option ChannelBalance :=
  if st.lnc.isNone || !st.isConnected then none else nodeResp

/-- Embedding of `LNCService.listChannels`: the guard returns `[]`, a node
call that throws is caught and also yields `[]`. -/
def listChannels {α : Type} (st : ServiceState) (nodeResp : Option (List α)) :
    List α :=
  if st.lnc.isNone || !st.isConnected then []
  else
    match nodeResp with
    | none => []
    | some l => l

/-- Embedding of `LNCService.createInvoice`: the guard returns `null`;
otherwise the node call's `paymentRequest` or `null` when it threw. -/
def createInvoice (st : ServiceState) (amount : Int) (memo : Option String)
    (nodeResp : Option String) : Option String :=
  if st.lnc.isNone || !st.isConnected then none else nodeResp

/-- Embedding of `LNCService.payInvoice`: the guard returns `false`;
otherwise `true` when `sendPaymentSync` did not throw, `false` when it did. -/
def payInvoice (st : ServiceState) (paymentRequest : String)
    (callOk : Bool) : Bool :=
  if st.lnc.isNone || !st.isConnected then false else callOk

/-- Shape of `StoredCredentials` in `LNCService.ts`. -/
structure StoredCredentials where
  pairingPhrase : String
  password : String
  serverHost : String
  sessionKey : Option String
deriving DecidableEq

/-- Shape of `LNCConfig` in `LNCService.ts`. -/
structure LNCConfig where
  pairingPhrase : Option String
  password : String
  serverHost : Option String

/-- Contents of the `lnc_credentials` SecureStore item: the ciphertext is
modelled as the password it was AES-encrypted under together with the
plaintext credentials. -/
def SecureStoreItem := Option (String × StoredCredentials)

/-- Embedding of `LNCService.getStoredCredentials`: `null` when no item is
stored; decryption with the wrong password yields no valid UTF-8 JSON, the
thrown error is caught and `null` returned; the right password recovers the
stored credentials. -/
def getStoredCredentials (store : SecureStoreItem) (password : String) :
    Option StoredCredentials :=
  match store with
  | none => none
  | some (pw, creds) => if pw = password then some creds else none

/-- Result of `LNCService.initialize` on a fresh instance: the returned
boolean, the `credentials` field afterwards, and the SecureStore contents
afterwards. -/
structure InitResult where
  ok : Bool
  credentials : Option StoredCredentials
  store : SecureStoreItem

/-- Default mailbox host used when the config supplies none. -/
def defaultMailbox : String := "mailbox.terminal.lightning.today:443"

/-- Embedding of `LNCService.initialize`: stored credentials recoverable
under `config.password` are used as-is (nothing written); otherwise a
supplied pairing phrase builds fresh credentials which are stored; with
neither, the thrown error is caught and `false` returned. -/
def initService (store : SecureStoreItem) (config : LNCConfig) : InitResult :=
  match getStoredCredentials store config.password with
  | some creds => ⟨true, some creds, store⟩
  | none =>
      match config.pairingPhrase with
      | some pp =>
          let creds : StoredCredentials :=
            ⟨pp, config.password, config.serverHost.getD defaultMailbox, none⟩
          ⟨true, some creds, some (config.password, creds)⟩
      | none => ⟨false, none, store⟩

end Frontend

namespace AssetLedger

theorem lookupBalance_upsert (l : List (String × Int)) (a : String) (amt : Int)
    (x : String) :
    lookupBalance (upsert l a amt) x
      = lookupBalance l x + (if x = a then amt else 0) := by
  induction l with
  | nil =>
      by_cases hxa : x = a
      · subst hxa; simp [upsert, lookupBalance]
      · have hax : ¬ a = x := fun h => hxa h.symm
        simp [upsert, lookupBalance, hax, hxa]
  | cons p rest ih =>
      obtain ⟨k, v⟩ := p
      by_cases hka : k = a
      · subst hka
        by_cases hkx : k = x
        · subst hkx; simp [upsert, lookupBalance]
        · have hxk : ¬ x = k := fun h => hkx h.symm
          simp [upsert, lookupBalance, hkx, hxk]
      · by_cases hkx : k = x
        · subst hkx
          simp [upsert, lookupBalance, hka]
        · simp [upsert, lookupBalance, hka, hkx, ih]

theorem hasRow_false_lookup (l : List (String × Int)) (a : String)
    (h : hasRow l a = false) : lookupBalance l a = 0 := by
  induction l with
  | nil => simp [lookupBalance]
  | cons p rest ih =>
      obtain ⟨k, v⟩ := p
      by_cases hka : k = a
      · simp [hasRow, hka] at h
      · simp [hasRow, hka] at h
        simp [lookupBalance, hka, ih h]

theorem confirmedSum_append (txs : List Transaction) (tx : Transaction)
    (a : String) :
    confirmedSum (txs ++ [tx]) a = confirmedSum txs a + contrib a tx := by
  simp [confirmedSum]

theorem contrib_pending (a : String) (t : Transaction)
    (h : t.status = TxStatus.pending) : contrib a t = 0 := by
  simp [contrib, h]

theorem contrib_failed (a : String) (t : Transaction)
    (h : t.status = TxStatus.failed) : contrib a t = 0 := by
  simp [contrib, h]

theorem findTx_eq_some {txs : List Transaction} {i : Nat} {tx : Transaction}
    (h : findTx txs i = some tx) : tx.id = i ∧ tx ∈ txs := by
  induction txs with
  | nil => simp [findTx] at h
  | cons t rest ih =>
      by_cases hti : t.id = i
      · simp [findTx, hti] at h
        subst h
        exact ⟨hti, List.mem_cons_self _ _⟩
      · simp [findTx, hti] at h
        obtain ⟨hid, hmem⟩ := ih h
        exact ⟨hid, List.mem_cons_of_mem _ hmem⟩

theorem findTx_append_fresh (txs : List Transaction) (tx : Transaction)
    (h : ∀ t ∈ txs, t.id ≠ tx.id) :
    findTx (txs ++ [tx]) tx.id = some tx := by
  induction txs with
  | nil => simp [findTx]
  | cons t rest ih =>
      have ht : t.id ≠ tx.id := h t (List.mem_cons_self _ _)
      simp only [List.cons_append, findTx, ht, if_false]
      exact ih (fun u hu => h u (List.mem_cons_of_mem _ hu))

theorem map_update_fresh (txs : List Transaction) (i : Nat)
    (tx' : Transaction) (h : ∀ t ∈ txs, t.id ≠ i) :
    txs.map (fun t => if t.id = i then tx' else t) = txs := by
  induction txs with
  | nil => simp
  | cons t rest ih =>
      have ht : t.id ≠ i := h t (List.mem_cons_self _ _)
      simp only [List.map_cons, ht, if_false]
      rw [ih (fun u hu => h u (List.mem_cons_of_mem _ hu))]

theorem confirmedSum_map_update {txs : List Transaction} {i : Nat}
    {tx : Transaction} (tx' : Transaction) (a : String)
    (hfind : findTx txs i = some tx)
    (hnd : (txs.map Transaction.id).Nodup) :
    confirmedSum (txs.map (fun t => if t.id = i then tx' else t)) a
      = confirmedSum txs a - contrib a tx + contrib a tx' := by
  induction txs with
  | nil => simp [findTx] at hfind
  | cons t rest ih =>
      rw [List.map_cons] at hnd
      have hnd' := hnd.of_cons
      by_cases hti : t.id = i
      · simp [findTx, hti] at hfind
        subst hfind
        have hids : t.id ∉ rest.map Transaction.id := (List.nodup_cons.mp hnd).1
        have hrest : ∀ u ∈ rest, u.id ≠ i := by
          intro u hu hui
          apply hids
          rw [hti, ← hui]
          exact List.mem_map_of_mem Transaction.id hu
        simp only [List.map_cons, hti, if_true]
        rw [map_update_fresh rest i tx' hrest]
        simp [confirmedSum]
        ring
      · simp [findTx, hti] at hfind
        simp only [List.map_cons, hti, if_false]
        have := ih hfind hnd'
        simp [confirmedSum] at this ⊢
        rw [this]
        ring

theorem ids_map_update (txs : List Transaction) (i : Nat)
    (tx' : Transaction) (hid : tx'.id = i) :
    (txs.map (fun t => if t.id = i then tx' else t)).map Transaction.id
      = txs.map Transaction.id := by
  rw [List.map_map]
  apply List.map_congr_left
  intro t _
  by_cases hti : t.id = i
  · simp [Function.comp, hti, hid]
  · simp [Function.comp, hti]

theorem append_ok {st : LedgerState} {ty : TxType} {aid : Option String}
    {amt : Int} {dest desc : Option String} {sid : Option Nat}
    {tx : Transaction} {st' : LedgerState}
    (h : append st ty aid amt dest desc sid = Except.ok (tx, st')) :
    tx = ⟨st.nextId, ty, aid, amt, TxStatus.pending, dest, desc⟩ ∧
    st' = ⟨st.transactions ++ [⟨st.nextId, ty, aid, amt, TxStatus.pending, dest, desc⟩],
           st.asset_balances, st.nextId + 1⟩ ∧
    signOk ty amt = true := by
  unfold append at h
  split at h
  case isTrue hsign =>
    split at h
    · simp at h
    · simp only [Except.ok.injEq, Prod.mk.injEq] at h
      obtain ⟨h1, h2⟩ := h
      exact ⟨h1.symm, h2.symm, hsign⟩
  case isFalse => simp at h

theorem transition_preserves {st : LedgerState} {i : Nat} {ns : TxStatus}
    {txr : Transaction} {st2 : LedgerState}
    (h : transition st i ns = Except.ok (txr, st2))
    (hwf : WF st)
    (hinv : ∀ a, getBalance st a = confirmedSum st.transactions a) :
    WF st2 ∧ ∀ a, getBalance st2 a = confirmedSum st2.transactions a := by
  obtain ⟨hbound, hnd⟩ := hwf
  unfold transition at h
  cases hfind : findTx st.transactions i with
  | none => rw [hfind] at h; simp at h
  | some tx =>
      rw [hfind] at h
      obtain ⟨hid, hmem⟩ := findTx_eq_some hfind
      obtain ⟨tid, tty, taid, tamt, tstat, tdest, tdesc⟩ := tx
      simp only at hid
      cases tstat with
      | confirmed => simp at h
      | failed => simp at h
      | pending =>
          have hcontrib0 : ∀ a, contrib a ⟨tid, tty, taid, tamt, TxStatus.pending, tdest, tdesc⟩ = 0 := by
            intro a; simp [contrib]
          cases ns with
          | pending => simp at h
          | confirmed =>
              simp only [Except.ok.injEq, Prod.mk.injEq] at h
              obtain ⟨htx, hst⟩ := h
              subst htx
              subst hst
              refine ⟨⟨?_, ?_⟩, ?_⟩
              · intro t ht
                simp only [List.mem_map] at ht
                obtain ⟨u, hu, hup⟩ := ht
                have : t.id = u.id := by
                  by_cases hui : u.id = i
                  · rw [← hup]; simp [hui, hid.symm ▸ hui]; omega
                  · rw [← hup]; simp [hui]
                rw [this]
                exact hbound u hu
              · have := ids_map_update st.transactions i
                  ⟨tid, tty, taid, tamt, TxStatus.confirmed, tdest, tdesc⟩ hid
                simp only [LedgerState.transactions]
                rw [this]
                exact hnd
              · intro a
                have hsum := confirmedSum_map_update
                  ⟨tid, tty, taid, tamt, TxStatus.confirmed, tdest, tdesc⟩ a hfind hnd
                simp only [LedgerState.transactions] at hsum ⊢
                rw [hsum, hcontrib0 a]
                cases taid with
                | none =>
                    simp only [getBalance, LedgerState.asset_balances, applyTx]
                    have := hinv a
                    simp only [getBalance] at this
                    rw [this]
                    simp [contrib]
                | some b =>
                    simp only [getBalance, LedgerState.asset_balances, applyTx]
                    rw [lookupBalance_upsert]
                    have := hinv a
                    simp only [getBalance] at this
                    rw [this]
                    by_cases hab : a = b
                    · subst hab; simp [contrib]
                    · have hba : ¬ b = a := fun hh => hab hh.symm
                      simp [contrib, hab, hba]
          | failed =>
              simp only [Except.ok.injEq, Prod.mk.injEq] at h
              obtain ⟨htx, hst⟩ := h
              subst htx
              subst hst
              refine ⟨⟨?_, ?_⟩, ?_⟩
              · intro t ht
                simp only [List.mem_map] at ht
                obtain ⟨u, hu, hup⟩ := ht
                have : t.id = u.id := by
                  by_cases hui : u.id = i
                  · rw [← hup]; simp [hui, hid.symm ▸ hui]; omega
                  · rw [← hup]; simp [hui]
                rw [this]
                exact hbound u hu
              · have := ids_map_update st.transactions i
                  ⟨tid, tty, taid, tamt, TxStatus.failed, tdest, tdesc⟩ hid
                simp only [LedgerState.transactions]
                rw [this]
                exact hnd
              · intro a
                have hsum := confirmedSum_map_update
                  ⟨tid, tty, taid, tamt, TxStatus.failed, tdest, tdesc⟩ a hfind hnd
                simp only [LedgerState.transactions] at hsum ⊢
                rw [hsum, hcontrib0 a]
                simp only [getBalance, LedgerState.asset_balances]
                have := hinv a
                simp only [getBalance] at this
                rw [this]
                simp [contrib]

theorem append_preserves {st : LedgerState} {ty : TxType} {aid : Option String}
    {amt : Int} {dest desc : Option String} {sid : Option Nat}
    {tx : Transaction} {st' : LedgerState}
    (h : append st ty aid amt dest desc sid = Except.ok (tx, st'))
    (hwf : WF st)
    (hinv : ∀ a, getBalance st a = confirmedSum st.transactions a) :
    WF st' ∧ ∀ a, getBalance st' a = confirmedSum st'.transactions a := by
  obtain ⟨htx, hst, _⟩ := append_ok h
  subst hst
  obtain ⟨hbound, hnd⟩ := hwf
  refine ⟨⟨?_, ?_⟩, ?_⟩
  · intro t ht
    simp only [LedgerState.transactions, List.mem_append, List.mem_singleton] at ht
    rcases ht with ht | ht
    · exact Nat.lt_succ_of_lt (hbound t ht)
    · subst ht; exact Nat.lt_succ_self _
  · simp only [LedgerState.transactions, List.map_append, List.map_cons,
      List.map_nil]
    rw [List.nodup_append]
    refine ⟨hnd, List.nodup_singleton _, ?_⟩
    intro x hx
    simp only [List.mem_map] at hx
    obtain ⟨u, hu, hux⟩ := hx
    simp only [List.mem_singleton]
    intro hxn
    have : u.id < st.nextId := hbound u hu
    rw [hux] at this
    rw [hxn] at this
    exact absurd this (by simp)
  · intro a
    simp only [getBalance, LedgerState.asset_balances, LedgerState.transactions]
    rw [confirmedSum_append, contrib_pending a _ rfl]
    have := hinv a
    simp only [getBalance] at this
    rw [this]
    ring

theorem reconcile_preserves {st : LedgerState} {a : String} {v : Int}
    {st' : LedgerState} {r : Option Transaction}
    (h : reconcile st a v = (st', r)) (hwf : WF st)
    (hinv : ∀ b, getBalance st b = confirmedSum st.transactions b) :
    WF st' ∧ ∀ b, getBalance st' b = confirmedSum st'.transactions b := by
  unfold reconcile at h
  split at h
  · simp only [Prod.mk.injEq] at h
    rw [← h.1]
    exact ⟨hwf, hinv⟩
  · cases happ : append st .reconciliation (some a) (v - getBalance st a)
        none none none with
    | error e =>
        rw [happ] at h
        simp only [Prod.mk.injEq] at h
        rw [← h.1]
        exact ⟨hwf, hinv⟩
    | ok p =>
        obtain ⟨tx, st1⟩ := p
        rw [happ] at h
        dsimp only at h
        have h1 := append_preserves happ hwf hinv
        cases htr : transition st1 tx.id .confirmed with
        | error e =>
            rw [htr] at h
            simp only [Prod.mk.injEq] at h
            rw [← h.1]
            exact h1
        | ok q =>
            obtain ⟨tx2, st2⟩ := q
            rw [htr] at h
            simp only [Prod.mk.injEq] at h
            rw [← h.1]
            exact transition_preserves htr h1.1 h1.2

theorem append_confirm_spec (st : LedgerState) (ty : TxType) (a : String)
    (amt : Int)
    (hbound : ∀ t ∈ st.transactions, t.id < st.nextId)
    (hsign : signOk ty amt = true) :
    append st ty (some a) amt none none none
      = Except.ok (⟨st.nextId, ty, some a, amt, TxStatus.pending, none, none⟩,
          ⟨st.transactions ++ [⟨st.nextId, ty, some a, amt, TxStatus.pending, none, none⟩],
           st.asset_balances, st.nextId + 1⟩) ∧
    transition
      ⟨st.transactions ++ [⟨st.nextId, ty, some a, amt, TxStatus.pending, none, none⟩],
       st.asset_balances, st.nextId + 1⟩ st.nextId TxStatus.confirmed
      = Except.ok (⟨st.nextId, ty, some a, amt, TxStatus.confirmed, none, none⟩,
          ⟨st.transactions ++ [⟨st.nextId, ty, some a, amt, TxStatus.confirmed, none, none⟩],
           upsert st.asset_balances a amt, st.nextId + 1⟩) := by
  constructor
  · simp [append, hsign]
  · have hfresh : ∀ t ∈ st.transactions,
        t.id ≠ (⟨st.nextId, ty, some a, amt, TxStatus.pending, none, none⟩ : Transaction).id := by
      intro t ht
      exact Nat.ne_of_lt (hbound t ht)
    have hfind := findTx_append_fresh st.transactions
      ⟨st.nextId, ty, some a, amt, TxStatus.pending, none, none⟩ hfresh
    unfold transition
    simp only [LedgerState.transactions]
    rw [hfind]
    dsimp only
    rw [List.map_append,
      map_update_fresh st.transactions st.nextId _
        (fun t ht => Nat.ne_of_lt (hbound t ht))]
    simp [applyTx]

theorem sendOnce_spec (st : LedgerState) (a : String)
    (hbound : ∀ t ∈ st.transactions, t.id < st.nextId) :
    sendOnce st a
      = ⟨st.transactions ++ [⟨st.nextId, TxType.send, some a, -1, TxStatus.confirmed, none, none⟩],
         upsert st.asset_balances a (-1), st.nextId + 1⟩ := by
  obtain ⟨h1, h2⟩ := append_confirm_spec st .send a (-1) hbound (by decide)
  unfold sendOnce
  rw [h1]
  dsimp only
  rw [h2]

theorem reconcile_spec (st : LedgerState) (a : String) (v : Int)
    (hbound : ∀ t ∈ st.transactions, t.id < st.nextId)
    (hne : v ≠ getBalance st a) :
    reconcile st a v =
      (⟨st.transactions
          ++ [⟨st.nextId, TxType.reconciliation, some a, v - getBalance st a,
               TxStatus.confirmed, none, none⟩],
        upsert st.asset_balances a (v - getBalance st a), st.nextId + 1⟩,
       some ⟨st.nextId, TxType.reconciliation, some a, v - getBalance st a,
             TxStatus.confirmed, none, none⟩) := by
  obtain ⟨h1, h2⟩ :=
    append_confirm_spec st .reconciliation a (v - getBalance st a) hbound rfl
  unfold reconcile
  rw [if_neg hne, h1]
  dsimp only
  rw [h2]

theorem confirmedCount_append_confirmed (txs : List Transaction)
    (tx : Transaction) (a : String) (h : isConfirmedFor a tx = true) :
    confirmedCount (txs ++ [tx]) a = confirmedCount txs a + 1 := by
  simp [confirmedCount, List.filter_append, h]

theorem reachable_wf_inv {st : LedgerState} (h : Reachable st) :
    WF st ∧ ∀ a, getBalance st a = confirmedSum st.transactions a := by
  induction h with
  | start =>
      refine ⟨⟨?_, ?_⟩, ?_⟩
      · intro t ht; simp [initState] at ht
      · simp [initState]
      · intro a; simp [initState, getBalance, lookupBalance, confirmedSum]
  | append_step _ happ ih => exact append_preserves happ ih.1 ih.2
  | transition_step _ htr ih => exact transition_preserves htr ih.1 ih.2
  | reconcile_step _ hrec ih => exact reconcile_preserves hrec ih.1 ih.2

/-- C1: for every asset `a`, at every state reachable through the engine's
operations (append, transition with its projector update, reconciliation),
the projected balance `getBalance(a)` equals the sum of `amount` over all
Transactions with `asset_id = a` and `status = Confirmed`. -/
theorem claim_C1_balance_invariant {st : LedgerState} (h : Reachable st) :
    ∀ a : String, getBalance st a = confirmedSum st.transactions a :=
  (reachable_wf_inv h).2

theorem claim_C1_witness :
    getBalance initState "asset-x" = confirmedSum initState.transactions "asset-x" :=
  claim_C1_balance_invariant Reachable.start "asset-x"

/-- C2: transitioning a Transaction whose status is Confirmed or Failed to
any status fails with `InvalidTransition` (the error return carries no new
state, so the record is unchanged), and every successful transition starts
from `Pending` and goes to `Confirmed` or `Failed`. -/
theorem claim_C2_terminal_immutable :
    (∀ (st : LedgerState) (i : Nat) (ns : TxStatus) (tx : Transaction),
      findTx st.transactions i = some tx →
      (tx.status = TxStatus.confirmed ∨ tx.status = TxStatus.failed) →
      transition st i ns = Except.error LedgerError.invalidTransition) ∧
    (∀ (st : LedgerState) (i : Nat) (ns : TxStatus) (tx' : Transaction)
        (st' : LedgerState),
      transition st i ns = Except.ok (tx', st') →
      ∃ tx, findTx st.transactions i = some tx ∧ tx.status = TxStatus.pending ∧
        (ns = TxStatus.confirmed ∨ ns = TxStatus.failed)) := by
  constructor
  · intro st i ns tx hfind hterm
    unfold transition
    rw [hfind]
    dsimp only
    rcases hterm with h | h <;> rw [h]
  · intro st i ns tx' st' h
    unfold transition at h
    cases hfind : findTx st.transactions i with
    | none => rw [hfind] at h; simp at h
    | some tx =>
        rw [hfind] at h
        dsimp only at h
        have hstat : tx.status = TxStatus.pending ∧
            (ns = TxStatus.confirmed ∨ ns = TxStatus.failed) := by
          cases hts : tx.status <;> rw [hts] at h <;> cases ns <;> simp_all
        exact ⟨tx, rfl, hstat.1, hstat.2⟩

theorem claim_C2_witness :
    transition ⟨[⟨0, TxType.mint, some "x", 5, TxStatus.confirmed, none, none⟩],
                [("x", 5)], 1⟩ 0 TxStatus.pending
      = Except.error LedgerError.invalidTransition :=
  claim_C2_terminal_immutable.1 _ 0 TxStatus.pending
    ⟨0, TxType.mint, some "x", 5, TxStatus.confirmed, none, none⟩
    rfl (Or.inl rfl)

/-- C3: submitting the same idempotency key twice yields the same
Transaction id both times and the second call neither mutates any state nor
invokes the operation (its result does not depend on the operation at
all), while an unseen key runs the operation exactly once and records the
key against the ledger-assigned id. -/
theorem claim_C3_idempotent_submit :
    (∀ (k : String) (op : LedgerState → Nat × LedgerState) (s : SysState),
      (submit k op (submit k op s).2).1 = (submit k op s).1 ∧
      (submit k op (submit k op s).2).2 = (submit k op s).2 ∧
      ∀ op' : LedgerState → Nat × LedgerState,
        submit k op' (submit k op s).2 = submit k op (submit k op s).2) ∧
    (∀ (k : String) (op : LedgerState → Nat × LedgerState) (s : SysState),
      lookupKey s.guard k = none →
      submit k op s
        = ((op s.ledger).1,
           ⟨(k, (op s.ledger).1) :: s.guard, (op s.ledger).2⟩)) := by
  constructor
  · intro k op s
    cases hlk : lookupKey s.guard k with
    | some txid => refine ⟨?_, ?_, ?_⟩ <;> simp [submit, hlk]
    | none => refine ⟨?_, ?_, ?_⟩ <;> simp [submit, hlk, lookupKey]
  · intro k op s hlk
    simp [submit, hlk]

theorem claim_C3_witness :
    submit "key1" (fun l => (7, l)) ⟨[], initState⟩
      = (7, ⟨[("key1", 7)], initState⟩) :=
  claim_C3_idempotent_submit.2 "key1" (fun l => (7, l)) ⟨[], initState⟩ rfl

/-- C4: when the daemon-reported balance differs from the local projection,
one reconciliation cycle appends exactly one `Reconciliation` Transaction
whose amount is the difference (daemon − local), already `Confirmed` (no
Pending round-trip), after which the projected balance equals the daemon
value; when they agree no Transaction is appended. -/
theorem claim_C4_reconciliation_convergence (st : LedgerState) (a : String)
    (v : Int) (hbound : ∀ t ∈ st.transactions, t.id < st.nextId) :
    (v ≠ getBalance st a →
      reconcile st a v
        = (⟨st.transactions
              ++ [⟨st.nextId, TxType.reconciliation, some a, v - getBalance st a,
                   TxStatus.confirmed, none, none⟩],
            upsert st.asset_balances a (v - getBalance st a), st.nextId + 1⟩,
           some ⟨st.nextId, TxType.reconciliation, some a, v - getBalance st a,
                 TxStatus.confirmed, none, none⟩) ∧
      getBalance (reconcile st a v).1 a = v ∧
      (reconcile st a v).1.transactions.length = st.transactions.length + 1) ∧
    (v = getBalance st a → reconcile st a v = (st, none)) := by
  constructor
  · intro hne
    have hs := reconcile_spec st a v hbound hne
    refine ⟨hs, ?_, ?_⟩
    · rw [hs]
      simp only [getBalance, LedgerState.asset_balances]
      rw [lookupBalance_upsert]
      simp only [getBalance]
      simp
    · rw [hs]
      simp
  · intro heq
    unfold reconcile
    rw [if_pos heq]

theorem claim_C4_witness :
    getBalance (reconcile initState "X" 650).1 "X" = 650 :=
  ((claim_C4_reconciliation_convergence initState "X" 650
      (by intro t ht; simp [initState] at ht)).1 (by decide)).2.1

/-- C5: `getBalance` is a total function into the integers that returns 0
for an asset with no balance row, and the frontend
`TaprootService.getAssetBalance` likewise returns an integer on every path:
0 on a thrown fetch, a non-success response or missing data, and the
reported value on success. -/
theorem claim_C5_getBalance_total :
    (∀ (st : LedgerState) (a : String),
      hasRow st.asset_balances a = false → getBalance st a = 0) ∧
    Frontend.getAssetBalance none = 0 ∧
    (∀ r : Frontend.ApiResponse Int, r.success = false →
      Frontend.getAssetBalance (some r) = 0) ∧
    (∀ r : Frontend.ApiResponse Int, r.data = none →
      Frontend.getAssetBalance (some r) = 0) ∧
    (∀ (r : Frontend.ApiResponse Int) (v : Int), r.success = true →
      r.data = some v → Frontend.getAssetBalance (some r) = v) := by
  refine ⟨?_, rfl, ?_, ?_, ?_⟩
  · intro st a h
    exact hasRow_false_lookup _ _ h
  · intro r h
    simp [Frontend.getAssetBalance, h]
  · intro r h
    simp [Frontend.getAssetBalance, h]
  · intro r v hs hd
    simp [Frontend.getAssetBalance, hs, hd]

theorem claim_C5_witness :
    getBalance initState "unknown-asset" = 0 :=
  claim_C5_getBalance_total.1 initState "unknown-asset" rfl

/-- C6: an `append` whose amount's sign violates the per-type policy (Send
must be negative, Receive and Mint must be positive) is rejected with
`ValidationError` — the error return carries no state, so no ledger entry
is created — while Reconciliation accepts either sign. -/
theorem claim_C6_sign_policy :
    (∀ (st : LedgerState) (aid : Option String) (amt : Int)
        (dest desc : Option String) (sid : Option Nat), (0:Int) ≤ amt →
      append st TxType.send aid amt dest desc sid
        = Except.error LedgerError.validationError) ∧
    (∀ (st : LedgerState) (aid : Option String) (amt : Int)
        (dest desc : Option String) (sid : Option Nat), amt ≤ 0 →
      append st TxType.receive aid amt dest desc sid
        = Except.error LedgerError.validationError) ∧
    (∀ (st : LedgerState) (aid : Option String) (amt : Int)
        (dest desc : Option String) (sid : Option Nat), amt ≤ 0 →
      append st TxType.mint aid amt dest desc sid
        = Except.error LedgerError.validationError) ∧
    (∀ amt : Int, signOk TxType.reconciliation amt = true) := by
  refine ⟨?_, ?_, ?_, fun amt => rfl⟩
  · intro st aid amt dest desc sid h
    have hso : signOk TxType.send amt = false := by
      simp [signOk]; omega
    simp [append, hso]
  · intro st aid amt dest desc sid h
    have hso : signOk TxType.receive amt = false := by
      simp [signOk]; omega
    simp [append, hso]
  · intro st aid amt dest desc sid h
    have hso : signOk TxType.mint amt = false := by
      simp [signOk]; omega
    simp [append, hso]

theorem claim_C6_witness :
    append initState TxType.send (some "x") 5 none none none
      = Except.error LedgerError.validationError :=
  claim_C6_sign_policy.1 initState (some "x") 5 none none none (by decide)

/-- C7: N `submitSend(-1)` operations against the same asset — which spec §5
serializes in a per-asset critical section, so every interleaving of N
concurrent calls executes as this sequence — take the projected balance
from B to B − N and add exactly N Confirmed Transactions. -/
theorem claim_C7_no_lost_updates (N : Nat) (st : LedgerState) (a : String)
    (hbound : ∀ t ∈ st.transactions, t.id < st.nextId) :
    getBalance (sendN N st a) a = getBalance st a - (N : Int) ∧
    confirmedCount (sendN N st a).transactions a
      = confirmedCount st.transactions a + N := by
  induction N generalizing st with
  | zero => simp [sendN]
  | succ n ih =>
      have hs := sendOnce_spec st a hbound
      have hbound' : ∀ t ∈ (sendOnce st a).transactions,
          t.id < (sendOnce st a).nextId := by
        rw [hs]
        intro t ht
        simp only [LedgerState.transactions, List.mem_append,
          List.mem_singleton] at ht
        rcases ht with ht | ht
        · exact Nat.lt_succ_of_lt (hbound t ht)
        · subst ht; exact Nat.lt_succ_self _
      obtain ⟨ih1, ih2⟩ := ih (sendOnce st a) hbound'
      constructor
      · show getBalance (sendN n (sendOnce st a) a) a = _
        rw [ih1, hs]
        simp only [getBalance, LedgerState.asset_balances]
        rw [lookupBalance_upsert]
        simp only [if_pos rfl]
        push_cast
        ring
      · show confirmedCount (sendN n (sendOnce st a) a).transactions a = _
        rw [ih2, hs]
        simp only [LedgerState.transactions]
        rw [confirmedCount_append_confirmed _ _ _ (by simp [isConfirmedFor])]
        omega

theorem claim_C7_witness :
    getBalance (sendN 3 initState "X") "X" = -3 ∧
    confirmedCount (sendN 3 initState "X").transactions "X" = 3 := by
  have h := claim_C7_no_lost_updates 3 initState "X"
    (by intro t ht; simp [initState] at ht)
  refine ⟨?_, ?_⟩
  · have h1 := h.1
    simpa using h1
  · have h2 := h.2
    simpa using h2

end AssetLedger

namespace Frontend

/-- C8: `TaprootService.sendAsset` never throws (it is a total function into
an optional string): it returns the transfer reference exactly when the
fetch succeeded with `success = true` and truthy `data`, and returns null
on every failure path — thrown fetch, non-success response, or missing
data. -/
theorem claim_C8_sendAsset_null_on_failure :
    ∀ (r : Option (ApiResponse String)) (s : String),
      sendAsset r = some s ↔
        ∃ result, r = some result ∧ result.success = true ∧
          result.data = some s ∧ s ≠ "" := by
  intro r s
  constructor
  · intro h
    cases r with
    | none => simp [sendAsset] at h
    | some result =>
        obtain ⟨succ, dat, err, msg⟩ := result
        cases succ with
        | false => simp [sendAsset] at h
        | true =>
            cases dat with
            | none => simp [sendAsset, strTruthy] at h
            | some d =>
                by_cases hd : d = ""
                · subst hd
                  simp [sendAsset, strTruthy] at h
                · have he : sendAsset (some ⟨true, some d, err, msg⟩) = some d := by
                    simp [sendAsset, strTruthy, hd]
                  rw [he, Option.some.injEq] at h
                  subst h
                  exact ⟨⟨true, some d, err, msg⟩, rfl, rfl, rfl, hd⟩
  · rintro ⟨result, hr, hsucc, hdata, hne⟩
    subst hr
    obtain ⟨succ, dat, err, msg⟩ := result
    simp only at hsucc hdata
    subst hsucc
    subst hdata
    simp [sendAsset, strTruthy, hne]

/-- C9: on an `LNCService` instance that is not connected (no `lnc` handle
or `isConnected` false), every read and payment operation returns its inert
default whatever the node would have answered: `getNodeInfo`,
`getWalletBalance`, `getChannelBalance` and `createInvoice` return null,
`listChannels` returns the empty list, `payInvoice` returns false. -/
theorem claim_C9_disconnected_inert (st : ServiceState)
    (hdis : st.lnc = none ∨ st.isConnected = false) :
    (∀ r, getNodeInfo st r = none) ∧
    (∀ r, getWalletBalance st r = none) ∧
    (∀ r, getChannelBalance st r = none) ∧
    (∀ (amount : Int) (memo : Option String) (r : Option String),
      createInvoice st amount memo r = none) ∧
    (∀ (α : Type) (r : Option (List α)), listChannels st r = []) ∧
    (∀ (pr : String) (c : Bool), payInvoice st pr c = false) := by
  have hguard : (st.lnc.isNone || !st.isConnected) = true := by
    rcases hdis with h | h <;> simp [h]
  refine ⟨?_, ?_, ?_, ?_, ?_, ?_⟩
  · intro r; simp [getNodeInfo, hguard]
  · intro r; simp [getWalletBalance, hguard]
  · intro r; simp [getChannelBalance, hguard]
  · intro amount memo r; simp [createInvoice, hguard]
  · intro α r; simp [listChannels, hguard]
  · intro pr c; simp [payInvoice, hguard]

theorem claim_C9_witness :
    getNodeInfo ⟨none, false⟩ (some ⟨"pk", "node", 1, 0, 100, true⟩) = none ∧
    payInvoice ⟨none, false⟩ "lnbc1" true = false :=
  ⟨(claim_C9_disconnected_inert ⟨none, false⟩ (Or.inl rfl)).1
      (some ⟨"pk", "node", 1, 0, 100, true⟩),
   (claim_C9_disconnected_inert ⟨none, false⟩ (Or.inl rfl)).2.2.2.2.2 "lnbc1" true⟩

/-- C10: `initialize` gives stored credentials precedence — when the stored
item decrypts under the config's password, the stored credentials are used
whatever pairing phrase the config supplies, and nothing is written back —
and a pairing phrase is persisted only when no stored credentials are
recoverable. -/
theorem claim_C10_stored_creds_precedence :
    (∀ (store : SecureStoreItem) (config : LNCConfig) (pw : String)
        (creds : StoredCredentials) (pp : String),
      store = some (pw, creds) → config.password = pw →
      config.pairingPhrase = some pp →
      initService store config = ⟨true, some creds, store⟩) ∧
    (∀ (store : SecureStoreItem) (config : LNCConfig),
      (initService store config).store ≠ store →
      getStoredCredentials store config.password = none) := by
  constructor
  · intro store config pw creds pp hstore hpw hpp
    subst hstore
    simp [initService, getStoredCredentials, hpw]
  · intro store config h
    cases hg : getStoredCredentials store config.password with
    | none => rfl
    | some creds =>
        exfalso
        apply h
        simp [initService, hg]

theorem claim_C10_witness :
    initService (some ("pw", ⟨"stored phrase", "pw", "host", none⟩))
        ⟨some "new phrase", "pw", none⟩
      = ⟨true, some ⟨"stored phrase", "pw", "host", none⟩,
         some ("pw", ⟨"stored phrase", "pw", "host", none⟩)⟩ :=
  claim_C10_stored_creds_precedence.1
    (some ("pw", ⟨"stored phrase", "pw", "host", none⟩))
    ⟨some "new phrase", "pw", none⟩ "pw"
    ⟨"stored phrase", "pw", "host", none⟩ "new phrase" rfl rfl rfl

end Frontend
